import Mathlib

/-!
# Shallow embedding of the bio-rust cellular automaton

This file embeds the core logic of the repository in Lean 4 and proves the
spec claims about it.

* `Universe`, `Universe.new`, `Universe.toggle`, `Universe.tick`,
  `Universe.live_neighbor_count` embed `src/universe.rs`.
* `Vertex`, `create_grid_vertices` embed `src/vertex.rs`.
* `clickMatches`, `handleClick`, `resolve_click` embed the `MouseInput`
  handler of `src/main.rs`.

Modelling conventions:

* Rust `u32`/`usize` values are modelled as `Nat`.  The board sizes the
  program builds (10×10, and the small boards of every claim) are far from
  the `u32` overflow regime, so unwrapped natural arithmetic is faithful
  on the whole domain the claims quantify over.
* Rust `f32` coordinates and colors are modelled as `ℚ`.  Both the code and
  the claims use the very same arithmetic expressions for positions, so the
  comparison is between identical expressions and exact arithmetic is
  faithful to it.
* A Rust panic (out-of-range `Vec` index in `toggle`) is modelled by
  `Option`: `none` is the panic.  Cell reads inside `tick` and
  `live_neighbor_count` use `List.getD _ _ false`; their callers only read
  indices `< rows*cols`, which are in bounds whenever the length invariant
  `cells.length = rows*cols` holds, so the default is never consulted there.
-/

/-- `pub struct Universe { cells: Vec<bool>, rows: u32, cols: u32 }`
from `src/universe.rs`. -/
structure Universe where
  cells : List Bool
  rows : Nat
  cols : Nat
deriving DecidableEq

/-- The byte `b'G'`. -/
def baseG : Nat := 71

/-- The byte `b'C'`. -/
def baseC : Nat := 67

/-- The seeding loop of `Universe::new`:
`for (i, &base) in dna.iter().enumerate() { if i >= cells.len() { break; }
if base == b'G' || base == b'C' { cells[i] = true; } }`. -/
def seedLoop (cells : List Bool) (dna : List Nat) (i : Nat) : List Bool :=
  match dna with
  | [] => cells
  | base :: rest =>
      if cells.length ≤ i then cells
      else seedLoop (if base = baseG ∨ base = baseC then cells.set i true else cells) rest (i + 1)

/-- `Universe::new(rows, cols, dna)`: `rows*cols` dead cells, then the seed
loop sets cell `i` alive when the `i`-th dna byte is `G` or `C`. -/
def Universe.new (rows cols : Nat) (dna : List Nat) : Universe :=
  { cells := seedLoop (List.replicate (rows * cols) false) dna 0
    rows := rows
    cols := cols }

/-- `Universe::toggle(row, col)`: flips `cells[idx]` at the flat index
`idx = row * cols + col`.  The Rust code performs no bounds check of its own;
`none` models the `Vec` indexing panic when `idx` is out of range. -/
def Universe.toggle (u : Universe) (row col : Nat) : Option Universe :=
  let idx := row * u.cols + col
  if h : idx < u.cells.length then
    some { u with cells := u.cells.set idx (!(u.cells.get ⟨idx, h⟩)) }
  else
    none

/-- The row-delta list `[self.rows - 1, 0, 1]` of `live_neighbor_count`. -/
def rowDeltas (u : Universe) : List Nat := [u.rows - 1, 0, 1]

/-- The column-delta list `[self.cols - 1, 0, 1]` of `live_neighbor_count`. -/
def colDeltas (u : Universe) : List Nat := [u.cols - 1, 0, 1]

/-- The delta pairs the two nested loops of `live_neighbor_count` iterate,
in loop order, after the `if delta_row == 0 && delta_col == 0 { continue; }`
skip. -/
def deltaPairs (u : Universe) : List (Nat × Nat) :=
  ((rowDeltas u).flatMap (fun dr => (colDeltas u).map (fun dc => (dr, dc)))).filter
    (fun p => !(p.1 == 0 && p.2 == 0))

/-- The `(neighbor_row, neighbor_col)` pairs visited by the loop of
`live_neighbor_count(row, col)`, in visit order:
`neighbor_row = (row + delta_row) % rows`, `neighbor_col = (col + delta_col) % cols`. -/
def neighborVisits (u : Universe) (row col : Nat) : List (Nat × Nat) :=
  (deltaPairs u).map (fun p => ((row + p.1) % u.rows, (col + p.2) % u.cols))

/-- `Universe::live_neighbor_count(row, col)`: counts the visits whose cell
`cells[neighbor_row * cols + neighbor_col]` is alive. -/
def Universe.live_neighbor_count (u : Universe) (row col : Nat) : Nat :=
  (neighborVisits u row col).countP (fun p => u.cells.getD (p.1 * u.cols + p.2) false)

/-- The `match (self.cells[idx], live_neighbors)` of `Universe::tick`,
transcribed arm by arm in order. -/
def nextState (cell : Bool) (live_neighbors : Nat) : Bool :=
  if cell = true ∧ live_neighbors < 2 then false
  else if (cell = true ∧ live_neighbors = 2) ∨ (cell = true ∧ live_neighbors = 3) then true
  else if cell = true ∧ live_neighbors > 3 then false
  else if cell = false ∧ live_neighbors = 3 then true
  else cell

/-- The `(row, col)` pairs of the nested `for row in 0..rows { for col in
0..cols { ... } }` loops, in loop order. -/
def cellList (rows cols : Nat) : List (Nat × Nat) :=
  (List.range rows).flatMap (fun row => (List.range cols).map (fun col => (row, col)))

/-- `Universe::tick()`: `next` starts as a clone of `cells`; the loop writes
`next[idx] = nextState(self.cells[idx], live_neighbor_count(row, col))` —
every read is from the old `self.cells` — and finally `self.cells = next`. -/
def Universe.tick (u : Universe) : Universe :=
  { u with
    cells :=
      (cellList u.rows u.cols).foldl
        (fun next p =>
          next.set (p.1 * u.cols + p.2)
            (nextState (u.cells.getD (p.1 * u.cols + p.2) false)
              (u.live_neighbor_count p.1 p.2)))
        u.cells }

/-- The Game-of-Life rule exactly as the claim words it (refinement side,
written from the spec, to be compared with `nextState` from the source):
live with fewer than 2 live neighbors dies; live with exactly 2 or 3
survives; live with more than 3 dies; dead with exactly 3 becomes alive;
every other dead cell stays dead. -/
def golRuleSpec (alive : Bool) (n : Nat) : Bool :=
  if alive then
    if n < 2 then false
    else if n = 2 ∨ n = 3 then true
    else false
  else
    if n = 3 then true else false

/-- `struct Vertex { position: [f32; 2], color: [f32; 3] }` from
`src/vertex.rs`, with `f32` modelled as `ℚ`. -/
structure Vertex where
  position : ℚ × ℚ
  color : ℚ × ℚ × ℚ
deriving DecidableEq

/-- `[0.2, 0.8, 0.2] // Alive: Green`. -/
def aliveColor : ℚ × ℚ × ℚ := (2/10, 8/10, 2/10)

/-- `[0.1, 0.1, 0.1] // Dead: Dark Grey`. -/
def deadColor : ℚ × ℚ × ℚ := (1/10, 1/10, 1/10)

/-- The padding constant local to `create_grid_vertices` (and repeated
verbatim inside the `MouseInput` handler of `src/main.rs`):
`let padding = 0.02;`. -/
def gridPadding : ℚ := 2/100

/-- The six `Vertex` records `create_grid_vertices` pushes for one cell, in
push order. -/
def cellVertices (alive : Bool) (x_offset y_offset cell_size : ℚ) : List Vertex :=
  let color := if alive then aliveColor else deadColor
  [ ⟨(x_offset, y_offset + cell_size), color⟩,
    ⟨(x_offset, y_offset), color⟩,
    ⟨(x_offset + cell_size, y_offset), color⟩,
    ⟨(x_offset, y_offset + cell_size), color⟩,
    ⟨(x_offset + cell_size, y_offset), color⟩,
    ⟨(x_offset + cell_size, y_offset + cell_size), color⟩ ]

/-- `create_grid_vertices(universe, cell_size)` from `src/vertex.rs`: for
each `(row, col)` in nested loop order, reads `cells[row * cols + col]`,
picks the color, computes
`x_offset = col * (cell_size + padding) - 0.6`,
`y_offset = row * (cell_size + padding) - 0.6`, and extends the vertex list
with the six vertices of the cell's two triangles.  `padding` is the local
constant `0.02`, not a parameter of the function. -/
def create_grid_vertices (u : Universe) (cell_size : ℚ) : List Vertex :=
  (cellList u.rows u.cols).flatMap (fun p =>
    let idx := p.1 * u.cols + p.2
    let alive := u.cells.getD idx false
    let x_offset := (p.2 : ℚ) * (cell_size + gridPadding) - 6/10
    let y_offset := (p.1 : ℚ) * (cell_size + gridPadding) - 6/10
    cellVertices alive x_offset y_offset cell_size)

/-- The `cell_size` value `main` uses for both rendering and click
resolution: `let cell_size = 0.08;`. -/
def mainCellSize : ℚ := 8/100

/-- The hit test of the `MouseInput` handler in `src/main.rs`:
`x >= x_offset && x <= x_offset + cell_size && y >= y_offset && y <= y_offset + cell_size`
with `x_offset = col * (cell_size + padding) - 0.6`,
`y_offset = row * (cell_size + padding) - 0.6`, `padding = 0.02` — the same
layout constants as `create_grid_vertices`. -/
def clickMatches (cell_size x y : ℚ) (row col : Nat) : Bool :=
  let x_offset := (col : ℚ) * (cell_size + gridPadding) - 6/10
  let y_offset := (row : ℚ) * (cell_size + gridPadding) - 6/10
  decide (x_offset ≤ x ∧ x ≤ x_offset + cell_size ∧ y_offset ≤ y ∧ y ≤ y_offset + cell_size)

/-- The `MouseInput` handler's loop over `(row, col)` in nested loop order:
every cell whose square contains `(x, y)` gets `universe.toggle(row, col)`.
(The handler also re-derives the vertex list and uploads it; that does not
touch the board.)  `none` models a panic inside `toggle`. -/
def handleClick (u : Universe) (cell_size x y : ℚ) : Option Universe :=
  (cellList u.rows u.cols).foldlM
    (fun acc p => if clickMatches cell_size x y p.1 p.2 then acc.toggle p.1 p.2 else pure acc)
    u

/-- First cell, in the handler's row-major scan order, whose closed square
contains the point — the "resolve click" reading of the handler's loop. -/
def resolve_click (rows cols : Nat) (cell_size x y : ℚ) : Option (Nat × Nat) :=
  (cellList rows cols).find? (fun p => clickMatches cell_size x y p.1 p.2)

example : Universe.new 2 2 [71, 65, 67, 84] = ⟨[true, false, true, false], 2, 2⟩ := by decide
example : (Universe.new 1 1 [71]).live_neighbor_count 0 0 = 5 := by decide
example : (Universe.new 1 1 [71]).tick = ⟨[false], 1, 1⟩ := by decide
example : (Universe.new 2 2 []).toggle 0 2 = some ⟨[false, false, true, false], 2, 2⟩ := by decide
example : (Universe.new 2 2 []).toggle 2 0 = none := by decide

/-! ## List toolkit -/

lemma getD_set {α : Type} (l : List α) (i j : Nat) (a d : α) :
    (l.set i a).getD j d = if i = j ∧ i < l.length then a else l.getD j d := by
  by_cases hij : i = j
  · subst hij
    by_cases hi : i < l.length
    · rw [if_pos ⟨rfl, hi⟩, List.getD_eq_getElem?_getD, List.getElem?_set_self]
      · simp [hi]
      · simpa using hi
    · rw [if_neg (by tauto), List.set_eq_of_length_le (by omega)]
  · rw [if_neg (by tauto), List.getD_eq_getElem?_getD, List.getElem?_set_ne hij,
      List.getD_eq_getElem?_getD]

lemma getD_lt {α : Type} (l : List α) (i : Nat) (d : α) (h : i < l.length) :
    l.getD i d = l.get ⟨i, h⟩ := by
  rw [List.getD_eq_getElem?_getD, List.getElem?_eq_getElem h]
  rfl

lemma getD_le {α : Type} (l : List α) (i : Nat) (d : α) (h : l.length ≤ i) :
    l.getD i d = d := by
  rw [List.getD_eq_getElem?_getD, List.getElem?_eq_none h]
  rfl

lemma foldl_set_length {α : Type} (idx : α → Nat) (v : α → Bool) (l : List α) :
    ∀ init : List Bool,
      (l.foldl (fun next p => next.set (idx p) (v p)) init).length = init.length := by
  induction l with
  | nil => intro init; rfl
  | cons a t ih => intro init; rw [List.foldl_cons, ih, List.length_set]

lemma foldl_set_getD_of_ne {α : Type} (idx : α → Nat) (v : α → Bool) (l : List α) :
    ∀ (init : List Bool) (j : Nat), (∀ p ∈ l, idx p ≠ j) →
      (l.foldl (fun next p => next.set (idx p) (v p)) init).getD j false = init.getD j false := by
  induction l with
  | nil => intro init j _; rfl
  | cons a t ih =>
      intro init j h
      rw [List.foldl_cons, ih _ j (fun p hp => h p (List.mem_cons_of_mem a hp)), getD_set,
        if_neg]
      rintro ⟨rfl, -⟩
      exact h a (List.mem_cons_self a t) rfl

lemma foldl_set_getD {α : Type} (idx : α → Nat) (v : α → Bool) (l : List α) :
    ∀ (init : List Bool) (p : α), p ∈ l → (l.map idx).Nodup → idx p < init.length →
      (l.foldl (fun next p => next.set (idx p) (v p)) init).getD (idx p) false = v p := by
  induction l with
  | nil => intro init p hp; exact absurd hp (List.not_mem_nil p)
  | cons a t ih =>
      intro init p hp hnd hlt
      rw [List.map_cons, List.nodup_cons] at hnd
      rw [List.foldl_cons]
      rcases List.mem_cons.mp hp with rfl | hpt
      · rw [foldl_set_getD_of_ne]
        · rw [getD_set, if_pos ⟨rfl, hlt⟩]
        · intro q hq hqp
          exact hnd.1 (hqp ▸ List.mem_map_of_mem idx hq)
      · exact ih _ p hpt hnd.2 (by rwa [List.length_set])

lemma foldl_set_getD_false {α : Type} (idx : α → Nat) (v : α → Bool) (l : List α)
    (hv : ∀ p ∈ l, v p = false) :
    ∀ init : List Bool, (∀ j, init.getD j false = false) →
      ∀ j, (l.foldl (fun next p => next.set (idx p) (v p)) init).getD j false = false := by
  induction l with
  | nil => intro init hinit j; exact hinit j
  | cons a t ih =>
      intro init hinit j
      rw [List.foldl_cons]
      refine ih (fun p hp => hv p (List.mem_cons_of_mem a hp)) _ (fun k => ?_) j
      rw [getD_set, hv a (List.mem_cons_self a t)]
      split <;> [rfl; exact hinit k]

/-! ## Seeding -/

lemma seedLoop_length (dna : List Nat) :
    ∀ (cells : List Bool) (i : Nat), (seedLoop cells dna i).length = cells.length := by
  induction dna with
  | nil => intro cells i; rfl
  | cons base rest ih =>
      intro cells i
      rw [seedLoop]
      split
      · rfl
      · rw [ih]
        split <;> simp [List.length_set]

lemma seedLoop_getD (dna : List Nat) :
    ∀ (cells : List Bool) (i j : Nat),
      (seedLoop cells dna i).getD j false =
        if i ≤ j ∧ j - i < dna.length ∧ j < cells.length ∧
            (dna.getD (j - i) 0 = baseG ∨ dna.getD (j - i) 0 = baseC) then true
        else cells.getD j false := by
  induction dna with
  | nil =>
      intro cells i j
      rw [seedLoop, if_neg]
      rintro ⟨-, h2, -, -⟩
      simp at h2
  | cons base rest ih =>
      intro cells i j
      rw [seedLoop]
      by_cases hlen : cells.length ≤ i
      · rw [if_pos hlen, if_neg]
        rintro ⟨h1, -, h3, -⟩
        omega
      · rw [if_neg hlen, ih]
        push_neg at hlen
        by_cases hij : j = i
        · subst hij
          rw [if_neg (by omega)]
          by_cases hGC : base = baseG ∨ base = baseC
          · rw [if_pos hGC, if_pos]
            · rw [getD_set, if_pos ⟨rfl, hlen⟩]
            · simpa using ⟨hlen, hGC⟩
          · rw [if_neg hGC, if_neg]
            simp only [Nat.sub_self, List.getD_cons_zero]
            rintro ⟨-, -, -, h4⟩
            exact hGC h4
        · have harm : (if base = baseG ∨ base = baseC then cells.set i true
              else cells).getD j false = cells.getD j false := by
            split
            · rw [getD_set, if_neg (by tauto)]
            · rfl
          have hlen2 : (if base = baseG ∨ base = baseC then cells.set i true
              else cells).length = cells.length := by
            split <;> simp [List.length_set]
          rw [harm, hlen2]
          apply if_congr _ rfl rfl
          by_cases hle : i + 1 ≤ j
          · have hsub : j - i = (j - (i + 1)) + 1 := by omega
            rw [hsub, List.getD_cons_succ]
            simp only [List.length_cons]
            constructor
            · rintro ⟨-, h2, h3, h4⟩; exact ⟨by omega, by omega, h3, h4⟩
            · rintro ⟨-, h2, h3, h4⟩; exact ⟨by omega, by omega, h3, h4⟩
          · constructor
            · rintro ⟨h1, -, -, -⟩; omega
            · rintro ⟨h1, -, -, -⟩; omega

lemma new_cells_getD (rows cols : Nat) (dna : List Nat) (j : Nat) :
    (Universe.new rows cols dna).cells.getD j false =
      if j < rows * cols ∧ j < dna.length ∧
          (dna.getD j 0 = baseG ∨ dna.getD j 0 = baseC) then true
      else false := by
  show (seedLoop (List.replicate (rows * cols) false) dna 0).getD j false = _
  rw [seedLoop_getD]
  have hrep : (List.replicate (rows * cols) false).getD j false = false := by
    by_cases hj : j < rows * cols
    · rw [getD_lt _ _ _ (by simpa using hj)]
      simp
    · rw [getD_le _ _ _ (by simpa using hj)]
  rw [hrep]
  apply if_congr _ rfl rfl
  simp only [Nat.sub_zero, Nat.zero_le, true_and, List.length_replicate]
  tauto

lemma new_cells_length (rows cols : Nat) (dna : List Nat) :
    (Universe.new rows cols dna).cells.length = rows * cols := by
  show (seedLoop (List.replicate (rows * cols) false) dna 0).length = _
  rw [seedLoop_length, List.length_replicate]

/-! ## The row-major cell list -/

lemma cellList_eq (rows cols : Nat) :
    cellList rows cols = (List.range (rows * cols)).map (fun n => (n / cols, n % cols)) := by
  induction rows with
  | zero => simp [cellList]
  | succ rows ih =>
      rcases Nat.eq_zero_or_pos cols with hc | hc
      · subst hc
        simp [cellList]
      · rw [cellList, List.range_succ, List.flatMap_append, ← cellList, ih,
          Nat.succ_mul, List.range_add, List.map_append]
        congr 1
        rw [List.flatMap_cons, List.flatMap_nil, List.append_nil, List.map_map]
        apply List.map_congr_left
        intro c hc2
        rw [List.mem_range] at hc2
        have hdiv : (rows * cols + c) / cols = rows := by
          rw [Nat.mul_comm rows cols, Nat.mul_add_div hc, Nat.div_eq_of_lt hc2, Nat.add_zero]
        have hmod : (rows * cols + c) % cols = c := by
          rw [Nat.mul_comm rows cols, Nat.mul_add_mod, Nat.mod_eq_of_lt hc2]
        simp [Function.comp, hdiv, hmod]

lemma cellList_length (rows cols : Nat) : (cellList rows cols).length = rows * cols := by
  rw [cellList_eq, List.length_map, List.length_range]

lemma mem_cellList (rows cols : Nat) (p : Nat × Nat) :
    p ∈ cellList rows cols ↔ p.1 < rows ∧ p.2 < cols := by
  constructor
  · intro hp
    rw [cellList] at hp
    rcases List.mem_flatMap.mp hp with ⟨r, hr, hmem⟩
    rcases List.mem_map.mp hmem with ⟨c, hcm, rfl⟩
    rw [List.mem_range] at hr hcm
    exact ⟨hr, hcm⟩
  · rintro ⟨h1, h2⟩
    rw [cellList]
    refine List.mem_flatMap.mpr ⟨p.1, List.mem_range.mpr h1, ?_⟩
    exact List.mem_map.mpr ⟨p.2, List.mem_range.mpr h2, rfl⟩

lemma flat_idx_lt (rows cols r c : Nat) (hr : r < rows) (hc : c < cols) :
    r * cols + c < rows * cols :=
  calc r * cols + c < r * cols + cols := by omega
    _ = (r + 1) * cols := by ring
    _ ≤ rows * cols := Nat.mul_le_mul_right cols hr

lemma cellList_map_idx (rows cols : Nat) :
    (cellList rows cols).map (fun p => p.1 * cols + p.2) = List.range (rows * cols) := by
  rw [cellList_eq, List.map_map]
  have : ∀ n ∈ List.range (rows * cols),
      ((fun p : Nat × Nat => p.1 * cols + p.2) ∘ fun n => (n / cols, n % cols)) n = id n := by
    intro n _
    simp only [Function.comp, id]
    rw [Nat.mul_comm]
    exact Nat.div_add_mod n cols
  rw [List.map_congr_left this, List.map_id]

lemma cellList_idx_nodup (rows cols : Nat) :
    ((cellList rows cols).map (fun p => p.1 * cols + p.2)).Nodup := by
  rw [cellList_map_idx]
  exact List.nodup_range _

lemma cellList_nodup (rows cols : Nat) : (cellList rows cols).Nodup :=
  (cellList_idx_nodup rows cols).of_map

lemma cellList_get (rows cols r c : Nat) (hc : c < cols)
    (hlt : r * cols + c < (cellList rows cols).length) :
    (cellList rows cols).get ⟨r * cols + c, hlt⟩ = (r, c) := by
  have hdiv : (r * cols + c) / cols = r := by
    rw [Nat.mul_comm r cols, Nat.mul_add_div (by omega), Nat.div_eq_of_lt hc, Nat.add_zero]
  have hmod : (r * cols + c) % cols = c := by
    rw [Nat.mul_comm r cols, Nat.mul_add_mod, Nat.mod_eq_of_lt hc]
  have h2 := hlt
  rw [cellList_length] at h2
  simp only [List.get_eq_getElem]
  have := cellList_eq rows cols
  rw [List.getElem_of_eq this, List.getElem_map, List.getElem_range, hdiv, hmod]

/-! ## Pointwise characterization of `tick` -/

lemma tick_rows (u : Universe) : (u.tick).rows = u.rows := rfl

lemma tick_cols (u : Universe) : (u.tick).cols = u.cols := rfl

lemma tick_cells_length (u : Universe) : (u.tick).cells.length = u.cells.length :=
  foldl_set_length _ _ _ _

lemma tick_cells_getD (u : Universe) (r c : Nat)
    (hlen : u.cells.length = u.rows * u.cols) (hr : r < u.rows) (hc : c < u.cols) :
    (u.tick).cells.getD (r * u.cols + c) false =
      nextState (u.cells.getD (r * u.cols + c) false) (u.live_neighbor_count r c) := by
  have h := foldl_set_getD (fun p : Nat × Nat => p.1 * u.cols + p.2)
    (fun p : Nat × Nat => nextState (u.cells.getD (p.1 * u.cols + p.2) false)
      (u.live_neighbor_count p.1 p.2))
    (cellList u.rows u.cols) u.cells (r, c)
    ((mem_cellList u.rows u.cols (r, c)).mpr ⟨hr, hc⟩)
    (cellList_idx_nodup u.rows u.cols)
    (by rw [hlen]; exact flat_idx_lt u.rows u.cols r c hr hc)
  exact h

lemma nextState_eq_golRuleSpec (cell : Bool) (n : Nat) :
    nextState cell n = golRuleSpec cell n := by
  unfold nextState golRuleSpec
  rcases cell
  · simp
  · by_cases h1 : n < 2
    · simp [h1]
    · by_cases h2 : n = 2
      · simp [h1, h2]
      · by_cases h3 : n = 3
        · simp [h1, h2, h3]
        · have h4 : n > 3 := by omega
          simp [h1, h2, h3, h4]

/-! ## Toroidal wrap arithmetic -/

lemma wrap_zero (n k : Nat) (hk : k < n) : (k + 0) % n = k := by
  rw [Nat.add_zero, Nat.mod_eq_of_lt hk]

lemma wrap_pred (n k : Nat) (h1 : 1 ≤ n) (hk : k < n) :
    (k + (n - 1)) % n = if k = 0 then n - 1 else k - 1 := by
  rcases k with - | k
  · rw [if_pos rfl, Nat.zero_add, Nat.mod_eq_of_lt (by omega)]
  · rw [if_neg (by omega)]
    have h2 : k + 1 + (n - 1) = k + n := by omega
    rw [h2, Nat.add_mod_right, Nat.mod_eq_of_lt (by omega)]
    omega

lemma wrap_succ (n k : Nat) (hk : k < n) :
    (k + 1) % n = if k + 1 = n then 0 else k + 1 := by
  split
  · simp_all
  · rw [Nat.mod_eq_of_lt (by omega)]

lemma wrap_distinct (n k : Nat) (h3 : 3 ≤ n) (hk : k < n) :
    (k + (n - 1)) % n ≠ (k + 0) % n ∧ (k + (n - 1)) % n ≠ (k + 1) % n ∧
      (k + 0) % n ≠ (k + 1) % n := by
  rw [wrap_zero n k hk, wrap_pred n k (by omega) hk, wrap_succ n k hk]
  split_ifs <;> omega

/-! ## The delta-pair list -/

lemma deltaPairs_of_ge (u : Universe) (hr : u.rows - 1 ≠ 0) (hc : u.cols - 1 ≠ 0) :
    deltaPairs u =
      [(u.rows - 1, u.cols - 1), (u.rows - 1, 0), (u.rows - 1, 1),
       (0, u.cols - 1), (0, 1),
       (1, u.cols - 1), (1, 0), (1, 1)] := by
  have hbr : ((u.rows - 1) == 0) = false := by simpa using hr
  have hbc : ((u.cols - 1) == 0) = false := by simpa using hc
  simp [deltaPairs, rowDeltas, colDeltas, hbr, hbc]

lemma eight_pairs_nodup (A B C D E F : Nat) (h1 : A ≠ B) (h2 : A ≠ C) (h3 : B ≠ C)
    (h4 : D ≠ E) (h5 : D ≠ F) (h6 : E ≠ F) :
    ([(A, D), (A, E), (A, F), (B, D), (B, F), (C, D), (C, E), (C, F)] :
      List (Nat × Nat)).Nodup := by
  simp only [List.nodup_cons, List.mem_cons, List.not_mem_nil, or_false, Prod.mk.injEq,
    not_or, List.nodup_nil, and_true]
  refine ⟨⟨?_, ?_, ?_, ?_, ?_, ?_, ?_⟩, ⟨?_, ?_, ?_, ?_, ?_, ?_⟩, ⟨?_, ?_, ?_, ?_, ?_⟩,
    ⟨?_, ?_, ?_, ?_⟩, ⟨?_, ?_, ?_⟩, ⟨?_, ?_⟩, ?_⟩ <;> tauto

lemma neighborVisits_nodup (u : Universe) (r c : Nat)
    (hr3 : 3 ≤ u.rows) (hc3 : 3 ≤ u.cols) (hr : r < u.rows) (hc : c < u.cols) :
    (neighborVisits u r c).Nodup ∧ (neighborVisits u r c).length = 8 := by
  have hdp := deltaPairs_of_ge u (by omega) (by omega)
  have hR := wrap_distinct u.rows r hr3 hr
  have hC := wrap_distinct u.cols c hc3 hc
  rw [neighborVisits, hdp]
  constructor
  · simp only [List.map_cons, List.map_nil]
    rw [show (r + 0) % u.rows = r from wrap_zero u.rows r hr] at hR ⊢
    rw [show (c + 0) % u.cols = c from wrap_zero u.cols c hc] at hC ⊢
    exact eight_pairs_nodup _ _ _ _ _ _ hR.1 hR.2.1 hR.2.2 hC.1 hC.2.1 hC.2.2
  · rfl

lemma live_neighbor_count_all_dead (u : Universe) (r c : Nat)
    (hdead : ∀ j, u.cells.getD j false = false) : u.live_neighbor_count r c = 0 := by
  rw [Universe.live_neighbor_count, List.countP_eq_zero]
  intro p _
  rw [hdead (p.1 * u.cols + p.2)]
  simp

/-- C1: on a validly constructed board with `rows ≥ 3` and `cols ≥ 3`,
`tick` computes each cell's new state from its old state and the live count
over its 8 toroidally-wrapped neighbors, by the Game-of-Life rule the claim
words (`golRuleSpec`); the visit list really has 8 pairwise-distinct
neighbors, every read is from the old generation (the right-hand side
mentions only the pre-`tick` board), and the dimensions are unchanged. -/
theorem claim_C1_tick_rule (u : Universe) (r c : Nat)
    (hlen : u.cells.length = u.rows * u.cols) (hr3 : 3 ≤ u.rows) (hc3 : 3 ≤ u.cols)
    (hr : r < u.rows) (hc : c < u.cols) :
    (u.tick).cells.getD (r * u.cols + c) false =
      golRuleSpec (u.cells.getD (r * u.cols + c) false) (u.live_neighbor_count r c)
    ∧ (neighborVisits u r c).length = 8
    ∧ (neighborVisits u r c).Nodup
    ∧ (u.tick).rows = u.rows ∧ (u.tick).cols = u.cols := by
  have h := neighborVisits_nodup u r c hr3 hc3 hr hc
  exact ⟨(tick_cells_getD u r c hlen hr hc).trans
    (nextState_eq_golRuleSpec _ _), h.2, h.1, rfl, rfl⟩

theorem claim_C1_witness :
    ((Universe.new 3 3 [65, 71, 65, 65, 71, 65, 65, 71, 65]).tick).cells.getD (1 * 3 + 1) false =
      golRuleSpec ((Universe.new 3 3 [65, 71, 65, 65, 71, 65, 65, 71, 65]).cells.getD (1 * 3 + 1) false)
        ((Universe.new 3 3 [65, 71, 65, 65, 71, 65, 65, 71, 65]).live_neighbor_count 1 1)
    ∧ (neighborVisits (Universe.new 3 3 [65, 71, 65, 65, 71, 65, 65, 71, 65]) 1 1).length = 8
    ∧ (neighborVisits (Universe.new 3 3 [65, 71, 65, 65, 71, 65, 65, 71, 65]) 1 1).Nodup
    ∧ ((Universe.new 3 3 [65, 71, 65, 65, 71, 65, 65, 71, 65]).tick).rows = 3
    ∧ ((Universe.new 3 3 [65, 71, 65, 65, 71, 65, 65, 71, 65]).tick).cols = 3 :=
  claim_C1_tick_rule (Universe.new 3 3 [65, 71, 65, 65, 71, 65, 65, 71, 65]) 1 1
    (by decide) (by decide) (by decide) (by decide) (by decide)

/-- C8: an all-dead board of any nonzero dimensions is a fixed point of
`tick`: every cell of the stepped board is dead. -/
theorem claim_C8_all_dead_fixed (u : Universe)
    (_hlen : u.cells.length = u.rows * u.cols) (_h1 : 1 ≤ u.rows) (_h2 : 1 ≤ u.cols)
    (hdead : ∀ j, u.cells.getD j false = false) :
    ∀ j, (u.tick).cells.getD j false = false := by
  intro j
  show ((cellList u.rows u.cols).foldl _ u.cells).getD j false = false
  apply foldl_set_getD_false
  · intro p _
    rw [live_neighbor_count_all_dead u p.1 p.2 hdead, hdead]
    rfl
  · exact hdead

theorem claim_C8_witness : ((Universe.new 2 3 (List.replicate 9 65)).tick).cells.getD 4 false = false :=
  claim_C8_all_dead_fixed (Universe.new 2 3 (List.replicate 9 65)) (by decide) (by decide)
    (by decide)
    (by
      intro j
      rw [new_cells_getD]
      rcases Nat.lt_or_ge j 6 with hj | hj
      · interval_cases j <;> decide
      · rw [if_neg]
        rintro ⟨h, -, -⟩
        omega)
    4

/-- C6: `cells.length = rows * cols` holds after construction and is
preserved by `tick` and by every successful `toggle`. -/
theorem claim_C6_length_invariant (rows cols : Nat) (dna : List Nat)
    (u u2 : Universe) (row col : Nat)
    (hlen : u.cells.length = u.rows * u.cols) (htog : u.toggle row col = some u2) :
    (Universe.new rows cols dna).cells.length = rows * cols
    ∧ (u.tick).cells.length = (u.tick).rows * (u.tick).cols
    ∧ u2.cells.length = u2.rows * u2.cols := by
  refine ⟨new_cells_length rows cols dna, ?_, ?_⟩
  · rw [tick_cells_length, tick_rows, tick_cols, hlen]
  · rw [Universe.toggle] at htog
    split at htog
    · cases htog
      simpa using hlen
    · cases htog

theorem claim_C6_witness :
    (Universe.new 2 2 [71, 65]).cells.length = 2 * 2
    ∧ ((Universe.new 2 2 []).tick).cells.length =
        ((Universe.new 2 2 []).tick).rows * ((Universe.new 2 2 []).tick).cols
    ∧ (⟨[false, true, false, false], 2, 2⟩ : Universe).cells.length =
        (⟨[false, true, false, false], 2, 2⟩ : Universe).rows *
          (⟨[false, true, false, false], 2, 2⟩ : Universe).cols :=
  claim_C6_length_invariant 2 2 [71, 65] (Universe.new 2 2 []) ⟨[false, true, false, false], 2, 2⟩
    0 1 (by decide) (by decide)

/-- C3 counterexample: construction with `rows = 0` does not fail — the code
has no `InvalidDimensions` error at all; it returns an ordinary `Universe`
with an empty cell vector. -/
theorem claim_C3_counterexample :
    Universe.new 0 5 [71] = ⟨[], 0, 5⟩ ∧ (Universe.new 0 5 [71]).cells.length = 0 * 5 := by
  decide

/-- C3 amended: `new` never fails; for every dimensions (zero included) it
returns a board carrying the requested `rows` and `cols` and a cell vector
of length `rows * cols` (empty when a dimension is zero). -/
theorem claim_C3_amended (rows cols : Nat) (dna : List Nat) :
    (Universe.new rows cols dna).rows = rows ∧ (Universe.new rows cols dna).cols = cols
    ∧ (Universe.new rows cols dna).cells.length = rows * cols :=
  ⟨rfl, rfl, new_cells_length rows cols dna⟩

/-- C2 counterexample: `toggle` with `col = 2 ≥ cols = 2` on a 2×2 board
neither signals an error nor leaves the board unchanged — it silently flips
the cell at flat index `0 * 2 + 2 = 2`, i.e. cell `(1, 0)`; and
`toggle(rows, 0)` is an out-of-range `Vec` index (a panic, modelled `none`),
not a recoverable `OutOfBounds` error. -/
theorem claim_C2_counterexample :
    (Universe.new 2 2 []).toggle 0 2 = some ⟨[false, false, true, false], 2, 2⟩
    ∧ (⟨[false, false, true, false], 2, 2⟩ : Universe) ≠ Universe.new 2 2 []
    ∧ (Universe.new 2 2 []).toggle 2 0 = none := by
  decide

/-- C2 amended: `toggle` performs no per-coordinate bounds check.  For
`row ≥ rows` (and in particular for `toggle(rows, 0)`) the flat index
`row * cols + col` is out of range and the call panics (`none`) instead of
signalling `OutOfBounds`; for `col ≥ cols` with `row * cols + col` still in
range, the call succeeds and mutates the board. -/
theorem claim_C2_amended (u : Universe) (row col : Nat)
    (hlen : u.cells.length = u.rows * u.cols) :
    (u.rows ≤ row → u.toggle row col = none)
    ∧ u.toggle u.rows 0 = none
    ∧ (u.cols ≤ col → row * u.cols + col < u.rows * u.cols →
        ∃ u2, u.toggle row col = some u2 ∧ u2.cells ≠ u.cells) := by
  refine ⟨?_, ?_, ?_⟩
  · intro hrow
    rw [Universe.toggle, dif_neg]
    rw [hlen]
    have : u.rows * u.cols ≤ row * u.cols := Nat.mul_le_mul_right u.cols hrow
    omega
  · rw [Universe.toggle, dif_neg]
    rw [hlen]
    omega
  · intro _ hidx
    have hbound : row * u.cols + col < u.cells.length := by rw [hlen]; exact hidx
    refine ⟨{ u with cells := u.cells.set (row * u.cols + col) (!(u.cells.get ⟨row * u.cols + col, hbound⟩)) }, ?_, ?_⟩
    · rw [Universe.toggle, dif_pos hbound]
    · intro heq
      have heq2 : u.cells.set (row * u.cols + col)
          (!(u.cells.get ⟨row * u.cols + col, hbound⟩)) = u.cells := heq
      have h1 : (u.cells.set (row * u.cols + col)
          (!(u.cells.get ⟨row * u.cols + col, hbound⟩))).getD (row * u.cols + col) false =
          !(u.cells.get ⟨row * u.cols + col, hbound⟩) := by
        rw [getD_set, if_pos ⟨rfl, hbound⟩]
      rw [heq2, getD_lt _ _ _ hbound] at h1
      exact Bool.not_ne_self _ h1.symm

theorem claim_C2_amended_witness : (Universe.new 3 2 []).toggle 5 1 = none :=
  (claim_C2_amended (Universe.new 3 2 []) 5 1 (by decide)).1 (by decide)

/-- C10: `toggle` addresses cells purely by the flat index
`row * cols + col`: it succeeds and flips exactly that flat index whenever
the index is below `rows * cols` — even when `col ≥ cols`, so
`toggle(0, cols)` on a board with `rows ≥ 2`, `cols ≥ 1` flips cell
`(1, 0)` — and panics (out-of-range `Vec` index, `none`) exactly when
`row * cols + col ≥ rows * cols`. -/
theorem claim_C10_flat_index (u : Universe) (row col : Nat)
    (hlen : u.cells.length = u.rows * u.cols) :
    (row * u.cols + col < u.rows * u.cols →
      u.toggle row col = some { u with
        cells := u.cells.set (row * u.cols + col)
          (!(u.cells.getD (row * u.cols + col) false)) })
    ∧ (u.rows * u.cols ≤ row * u.cols + col → u.toggle row col = none)
    ∧ (2 ≤ u.rows → 1 ≤ u.cols →
        u.toggle 0 u.cols = some { u with
          cells := u.cells.set (1 * u.cols + 0)
            (!(u.cells.getD (1 * u.cols + 0) false)) }) := by
  have htog : ∀ r2 c2 : Nat, r2 * u.cols + c2 < u.rows * u.cols →
      u.toggle r2 c2 = some { u with
        cells := u.cells.set (r2 * u.cols + c2)
          (!(u.cells.getD (r2 * u.cols + c2) false)) } := by
    intro r2 c2 hidx
    have hbound : r2 * u.cols + c2 < u.cells.length := by rw [hlen]; exact hidx
    rw [Universe.toggle, dif_pos hbound, getD_lt _ _ _ hbound]
  refine ⟨htog row col, ?_, ?_⟩
  · intro hidx
    rw [Universe.toggle, dif_neg]
    rw [hlen]
    omega
  · intro hr2 hc1
    have hflat : 0 * u.cols + u.cols = 1 * u.cols + 0 := by ring
    have h := htog 0 u.cols (by
      rw [hflat]
      exact flat_idx_lt u.rows u.cols 1 0 hr2 hc1)
    rw [hflat] at h
    exact h

theorem claim_C10_witness :
    (Universe.new 2 2 []).toggle 1 1 = some ⟨[false, false, false, true], 2, 2⟩
    ∧ (Universe.new 2 2 []).toggle 0 2 = some ⟨[false, false, true, false], 2, 2⟩ := by
  have h1 := (claim_C10_flat_index (Universe.new 2 2 []) 1 1 (by decide)).1 (by decide)
  have h2 := (claim_C10_flat_index (Universe.new 2 2 []) 0 2 (by decide)).2.2 (by decide) (by decide)
  exact ⟨h1.trans (by decide), h2.trans (by decide)⟩

lemma list_eq_of_getD (l1 l2 : List Bool) (hl : l1.length = l2.length)
    (h : ∀ k, l1.getD k false = l2.getD k false) : l1 = l2 := by
  apply List.ext_getElem?
  intro k
  by_cases hk : k < l1.length
  · have hk2 : k < l2.length := hl ▸ hk
    rw [List.getElem?_eq_getElem hk, List.getElem?_eq_getElem hk2]
    have hv := h k
    rw [getD_lt _ _ _ hk, getD_lt _ _ _ hk2] at hv
    simpa using hv
  · rw [List.getElem?_eq_none (by omega), List.getElem?_eq_none (by omega)]

/-- C4: on a board with nonzero dimensions, cell `i` (for `i < rows*cols`)
is alive exactly when the seed has a symbol at `i` and it is `G` or `C`
(anything else, `A` and `T` included, leaves it dead; indices beyond the
seed length stay dead), and seed symbols at indices `≥ rows*cols` are
ignored: the board equals the one seeded from `dna.take (rows*cols)`. -/
theorem claim_C4_seeding (rows cols : Nat) (dna : List Nat) (i : Nat)
    (_h1 : 1 ≤ rows) (_h2 : 1 ≤ cols) (hi : i < rows * cols) :
    ((Universe.new rows cols dna).cells.getD i false = true ↔
      i < dna.length ∧ (dna.getD i 0 = baseG ∨ dna.getD i 0 = baseC))
    ∧ Universe.new rows cols dna = Universe.new rows cols (dna.take (rows * cols)) := by
  constructor
  · rw [new_cells_getD]
    split_ifs with hcond
    · exact iff_of_true rfl ⟨hcond.2.1, hcond.2.2⟩
    · exact iff_of_false (by simp) (fun hP => hcond ⟨hi, hP.1, hP.2⟩)
  · have hcells : (Universe.new rows cols dna).cells =
        (Universe.new rows cols (dna.take (rows * cols))).cells := by
      apply list_eq_of_getD
      · rw [new_cells_length, new_cells_length]
      · intro k
        rw [new_cells_getD, new_cells_getD]
        apply if_congr _ rfl rfl
        constructor
        · rintro ⟨hk, hkd, hgc⟩
          have htake : (dna.take (rows * cols)).getD k 0 = dna.getD k 0 := by
            rw [List.getD_eq_getElem?_getD, List.getD_eq_getElem?_getD,
              List.getElem?_take_of_lt hk]
          exact ⟨hk, by rw [List.length_take]; omega, by rw [htake]; exact hgc⟩
        · rintro ⟨hk, hkd, hgc⟩
          have htake : (dna.take (rows * cols)).getD k 0 = dna.getD k 0 := by
            rw [List.getD_eq_getElem?_getD, List.getD_eq_getElem?_getD,
              List.getElem?_take_of_lt hk]
          rw [List.length_take] at hkd
          exact ⟨hk, by omega, by rw [← htake]; exact hgc⟩
    show Universe.mk _ rows cols = Universe.mk _ rows cols
    rw [show (Universe.new rows cols dna).cells = _ from rfl] at hcells
    exact congrArg (fun cs => Universe.mk cs rows cols) hcells

theorem claim_C4_witness :
    ((Universe.new 2 2 [71, 65, 67, 84]).cells.getD 2 false = true ↔
      2 < ([71, 65, 67, 84] : List Nat).length ∧
        (([71, 65, 67, 84] : List Nat).getD 2 0 = baseG ∨
          ([71, 65, 67, 84] : List Nat).getD 2 0 = baseC))
    ∧ Universe.new 2 2 [71, 65, 67, 84] =
        Universe.new 2 2 (([71, 65, 67, 84] : List Nat).take (2 * 2)) :=
  claim_C4_seeding 2 2 [71, 65, 67, 84] 2 (by decide) (by decide) (by decide)

/-- C9: on any board with `rows < 3` or `cols < 3`, the neighbor loop of
`live_neighbor_count` visits some neighbor cell at two different iterations
(the delta lists `[rows-1, 0, 1]` / `[cols-1, 0, 1]` collide after the
modular wrap), so that cell is counted more than once; in particular on a
1×1 board with its single cell alive the count is 5 (not 0), and one `tick`
kills that cell. -/
theorem claim_C9_duplicate_neighbors (u : Universe) (r c : Nat)
    (h1 : 1 ≤ u.rows) (h2 : 1 ≤ u.cols) (h3 : u.rows < 3 ∨ u.cols < 3)
    (_hr : r < u.rows) (_hc : c < u.cols) :
    (∃ i j, i < j ∧ j < (neighborVisits u r c).length ∧
      (neighborVisits u r c).getD i (0, 0) = (neighborVisits u r c).getD j (0, 0))
    ∧ (Universe.new 1 1 [71]).live_neighbor_count 0 0 = 5
    ∧ (Universe.new 1 1 [71]).tick = ⟨[false], 1, 1⟩ := by
  refine ⟨?_, by decide, by decide⟩
  have hcase : u.rows = 1 ∨ u.rows = 2 ∨ (3 ≤ u.rows ∧ u.cols = 1) ∨
      (3 ≤ u.rows ∧ u.cols = 2) := by omega
  rcases hcase with h | h | ⟨h3r, h⟩ | ⟨h3r, h⟩
  · by_cases hc1 : u.cols = 1
    · refine ⟨0, 1, by omega, ?_, ?_⟩ <;>
        simp [neighborVisits, deltaPairs, rowDeltas, colDeltas, h, hc1]
    · have hb : ((u.cols - 1) == 0) = false := by
        simp only [beq_eq_false_iff_ne, ne_eq]
        omega
      refine ⟨1, 3, by omega, ?_, ?_⟩ <;>
        simp [neighborVisits, deltaPairs, rowDeltas, colDeltas, h, hb]
  · by_cases hc1 : u.cols = 1
    · refine ⟨0, 1, by omega, ?_, ?_⟩ <;>
        simp [neighborVisits, deltaPairs, rowDeltas, colDeltas, h, hc1]
    · have hb : ((u.cols - 1) == 0) = false := by
        simp only [beq_eq_false_iff_ne, ne_eq]
        omega
      refine ⟨1, 6, by omega, ?_, ?_⟩ <;>
        simp [neighborVisits, deltaPairs, rowDeltas, colDeltas, h, hb]
  · have hbr : ((u.rows - 1) == 0) = false := by
      simp only [beq_eq_false_iff_ne, ne_eq]
      omega
    refine ⟨0, 1, by omega, ?_, ?_⟩ <;>
      simp [neighborVisits, deltaPairs, rowDeltas, colDeltas, h, hbr]
  · have hbr : ((u.rows - 1) == 0) = false := by
      simp only [beq_eq_false_iff_ne, ne_eq]
      omega
    refine ⟨0, 2, by omega, ?_, ?_⟩ <;>
      simp [neighborVisits, deltaPairs, rowDeltas, colDeltas, h, hbr]

theorem claim_C9_witness :
    (∃ i j, i < j ∧ j < (neighborVisits (Universe.new 1 1 [71]) 0 0).length ∧
      (neighborVisits (Universe.new 1 1 [71]) 0 0).getD i (0, 0) =
        (neighborVisits (Universe.new 1 1 [71]) 0 0).getD j (0, 0))
    ∧ (Universe.new 1 1 [71]).live_neighbor_count 0 0 = 5
    ∧ (Universe.new 1 1 [71]).tick = ⟨[false], 1, 1⟩ :=
  claim_C9_duplicate_neighbors (Universe.new 1 1 [71]) 0 0 (by decide) (by decide)
    (by decide) (by decide) (by decide)

/-! ## Geometry blocks -/

lemma length_flatMap_const {α β : Type} (l : List α) (f : α → List β) (n : Nat)
    (h : ∀ a ∈ l, (f a).length = n) : (l.flatMap f).length = l.length * n := by
  induction l with
  | nil => simp
  | cons a t ih =>
      rw [List.flatMap_cons, List.length_append, h a (List.mem_cons_self a t),
        ih (fun b hb => h b (List.mem_cons_of_mem a hb)), List.length_cons]
      ring

lemma drop_flatMap_const {α β : Type} (f : α → List β) (n : Nat) :
    ∀ (k : Nat) (l : List α), (∀ a ∈ l, (f a).length = n) →
      (l.flatMap f).drop (n * k) = (l.drop k).flatMap f := by
  intro k
  induction k with
  | zero => intro l _; rw [Nat.mul_zero, List.drop_zero, List.drop_zero]
  | succ k ih =>
      intro l h
      cases l with
      | nil => rw [List.flatMap_nil, List.drop_nil, List.drop_nil, List.flatMap_nil]
      | cons a t =>
          rw [List.flatMap_cons,
            show n * (k + 1) = (f a).length + n * k by
              rw [h a (List.mem_cons_self a t)]; ring,
            List.drop_append, List.drop_succ_cons,
            ih t (fun b hb => h b (List.mem_cons_of_mem a hb))]

lemma flatMap_block {α β : Type} (l : List α) (f : α → List β) (n : Nat)
    (h : ∀ a ∈ l, (f a).length = n) (k : Nat) (hk : k < l.length) :
    ((l.flatMap f).drop (n * k)).take n = f (l.get ⟨k, hk⟩) := by
  rw [drop_flatMap_const f n k l h, List.drop_eq_getElem_cons hk, List.flatMap_cons]
  simp only [List.get_eq_getElem]
  rw [show n = (f l[k]).length from (h _ (List.getElem_mem hk)).symm]
  exact List.take_left _ _

/-- C5 amended: `create_grid_vertices` never fails, is a pure function
(deterministic: equal inputs give the identical vertex list), produces
exactly `rows * cols * 6` vertices in row-major cell order, and the
6-vertex block of cell `(r, c)` is `cellVertices` — the claimed vertex
order `(x, y+size), (x, y), (x+size, y), (x, y+size), (x+size, y),
(x+size, y+size)` with one fixed color per cell, alive or dead — at
`x = col * (cell_size + padding) - 0.6`, `y = row * (cell_size + padding)
- 0.6`, where `padding` is the function's fixed local constant `0.02`
(`gridPadding`), not an input; the two colors are distinct. -/
theorem claim_C5_amended (u : Universe) (cell_size : ℚ) (r c : Nat)
    (hr : r < u.rows) (hc : c < u.cols) :
    (create_grid_vertices u cell_size).length = u.rows * u.cols * 6
    ∧ create_grid_vertices u cell_size = create_grid_vertices u cell_size
    ∧ ((create_grid_vertices u cell_size).drop (6 * (r * u.cols + c))).take 6 =
        cellVertices (u.cells.getD (r * u.cols + c) false)
          ((c : ℚ) * (cell_size + gridPadding) - 6/10)
          ((r : ℚ) * (cell_size + gridPadding) - 6/10) cell_size
    ∧ aliveColor ≠ deadColor := by
  have hk : r * u.cols + c < (cellList u.rows u.cols).length := by
    rw [cellList_length]
    exact flat_idx_lt u.rows u.cols r c hr hc
  have hblocks : ∀ p ∈ cellList u.rows u.cols,
      ((fun p : Nat × Nat =>
        cellVertices (u.cells.getD (p.1 * u.cols + p.2) false)
          ((p.2 : ℚ) * (cell_size + gridPadding) - 6/10)
          ((p.1 : ℚ) * (cell_size + gridPadding) - 6/10) cell_size) p).length = 6 :=
    fun p _ => rfl
  refine ⟨?_, rfl, ?_, ?_⟩
  · rw [create_grid_vertices, length_flatMap_const _ _ 6 hblocks, cellList_length]
  · rw [create_grid_vertices, flatMap_block _ _ 6 hblocks (r * u.cols + c) hk,
      cellList_get u.rows u.cols r c hc hk]
  · intro h
    have := congrArg (fun t : ℚ × ℚ × ℚ => t.1) h
    norm_num [aliveColor, deadColor] at this

theorem claim_C5_witness :
    ((create_grid_vertices (Universe.new 1 2 [71]) (8/100)).drop (6 * (0 * 2 + 1))).take 6 =
      cellVertices ((Universe.new 1 2 [71]).cells.getD (0 * 2 + 1) false)
        (((1 : Nat) : ℚ) * (8/100 + gridPadding) - 6/10)
        (((0 : Nat) : ℚ) * (8/100 + gridPadding) - 6/10) (8/100) :=
  (claim_C5_amended (Universe.new 1 2 [71]) (8/100) 0 1 (by decide) (by decide)).2.2.1

/-- C5 counterexample: the position of the first vertex of cell `(0, 1)`
tracks the fixed internal padding `0.02`, not a caller-supplied padding:
with `cell_size = 0.08` its x-coordinate is `1*(0.08+0.02)-0.6 = -0.5`,
which differs from the claimed `col*(cell_size+padding)-0.6` at the input
`padding = 0.5`. -/
theorem claim_C5_counterexample :
    ((create_grid_vertices (Universe.new 1 2 []) (8/100)).getD 6 ⟨(0, 0), (0, 0, 0)⟩).position.1 =
      (1 : ℚ) * (8/100 + 2/100) - 6/10
    ∧ ((create_grid_vertices (Universe.new 1 2 []) (8/100)).getD 6 ⟨(0, 0), (0, 0, 0)⟩).position.1 ≠
      (1 : ℚ) * (8/100 + 1/2) - 6/10 := by
  constructor <;>
    norm_num [create_grid_vertices, cellList, List.range_succ, Universe.new, seedLoop,
      cellVertices, gridPadding, aliveColor, deadColor, List.replicate_succ]

/-! ## Click resolution -/

lemma click_unique (x y : ℚ) (r c r2 c2 : Nat)
    (h1 : clickMatches mainCellSize x y r c = true)
    (h2 : clickMatches mainCellSize x y r2 c2 = true) : r = r2 ∧ c = c2 := by
  simp only [clickMatches, mainCellSize, gridPadding, decide_eq_true_eq] at h1 h2
  obtain ⟨a1, a2, a3, a4⟩ := h1
  obtain ⟨b1, b2, b3, b4⟩ := h2
  constructor
  · have hr1 : (r : ℚ) < (r2 : ℚ) + 1 := by linarith
    have hr2 : (r2 : ℚ) < (r : ℚ) + 1 := by linarith
    have hr1n : r < r2 + 1 := by exact_mod_cast hr1
    have hr2n : r2 < r + 1 := by exact_mod_cast hr2
    omega
  · have hc1 : (c : ℚ) < (c2 : ℚ) + 1 := by linarith
    have hc2 : (c2 : ℚ) < (c : ℚ) + 1 := by linarith
    have hc1n : c < c2 + 1 := by exact_mod_cast hc1
    have hc2n : c2 < c + 1 := by exact_mod_cast hc2
    omega

lemma find?_eq_of_unique {α : Type} (p : α → Bool) (l : List α) (a : α)
    (ha : a ∈ l) (hpa : p a = true) (huniq : ∀ b ∈ l, p b = true → b = a) :
    l.find? p = some a := by
  induction l with
  | nil => exact absurd ha (List.not_mem_nil a)
  | cons hd t ih =>
      by_cases hp : p hd = true
      · rw [List.find?_cons_of_pos _ hp, huniq hd (List.mem_cons_self hd t) hp]
      · rw [List.find?_cons_of_neg _ (by simpa using hp)]
        rcases List.mem_cons.mp ha with rfl | hat
        · exact absurd hpa hp
        · exact ih hat (fun b hb hpb => huniq b (List.mem_cons_of_mem hd hb) hpb)

lemma fold_no_match (x y : ℚ) (l : List (Nat × Nat))
    (h : ∀ p ∈ l, ¬ clickMatches mainCellSize x y p.1 p.2 = true) :
    ∀ u : Universe,
      l.foldlM (fun acc p => if clickMatches mainCellSize x y p.1 p.2 then
          acc.toggle p.1 p.2 else pure acc) u = some u := by
  induction l with
  | nil => intro u; rfl
  | cons a t ih =>
      intro u
      rw [List.foldlM_cons, if_neg (h a (List.mem_cons_self a t))]
      exact ih (fun p hp => h p (List.mem_cons_of_mem a hp)) u

lemma handle_fold (x y : ℚ) (l : List (Nat × Nat)) :
    ∀ u : Universe, u.cells.length = u.rows * u.cols →
      (∀ p ∈ l, p.1 < u.rows ∧ p.2 < u.cols) → l.Nodup →
      (∀ p ∈ l, ∀ q ∈ l, clickMatches mainCellSize x y p.1 p.2 = true →
        clickMatches mainCellSize x y q.1 q.2 = true → p = q) →
      l.foldlM (fun acc p => if clickMatches mainCellSize x y p.1 p.2 then
          acc.toggle p.1 p.2 else pure acc) u
        = some (match l.find? (fun p => clickMatches mainCellSize x y p.1 p.2) with
                | none => u
                | some p => { u with cells := u.cells.set (p.1 * u.cols + p.2) (!(u.cells.getD (p.1 * u.cols + p.2) false)) }) := by
  induction l with
  | nil => intro u _ _ _ _; rfl
  | cons a t ih =>
      intro u hlen hmem hnd huniq
      rw [List.nodup_cons] at hnd
      rw [List.foldlM_cons]
      by_cases hm : clickMatches mainCellSize x y a.1 a.2 = true
      · have hbound : a.1 * u.cols + a.2 < u.cells.length := by
          rw [hlen]
          exact flat_idx_lt u.rows u.cols a.1 a.2 (hmem a (List.mem_cons_self a t)).1
            (hmem a (List.mem_cons_self a t)).2
        have hnomatch : ∀ p ∈ t, ¬ clickMatches mainCellSize x y p.1 p.2 = true := by
          intro p hp hpm
          have hpa : p = a :=
            huniq p (List.mem_cons_of_mem a hp) a (List.mem_cons_self a t) hpm hm
          exact hnd.1 (hpa ▸ hp)
        have hm2 : (fun p : Nat × Nat => clickMatches mainCellSize x y p.1 p.2) a = true := hm
        have hfind : List.find? (fun p : Nat × Nat => clickMatches mainCellSize x y p.1 p.2) (a :: t) = some a :=
          List.find?_cons_of_pos t hm2
        rw [if_pos hm, hfind, Universe.toggle, dif_pos hbound]
        show t.foldlM _ _ = _
        rw [fold_no_match x y t hnomatch]
        refine congrArg some ?_
        show _ = { u with cells := u.cells.set (a.1 * u.cols + a.2) (!(u.cells.getD (a.1 * u.cols + a.2) false)) }
        rw [getD_lt _ _ _ hbound]
      · have hm2 : ¬ (fun p : Nat × Nat => clickMatches mainCellSize x y p.1 p.2) a = true := hm
        have hfind : List.find? (fun p : Nat × Nat => clickMatches mainCellSize x y p.1 p.2) (a :: t) =
            List.find? (fun p : Nat × Nat => clickMatches mainCellSize x y p.1 p.2) t :=
          List.find?_cons_of_neg t hm2
        rw [if_neg hm, hfind]
        exact ih u hlen (fun p hp => hmem p (List.mem_cons_of_mem a hp)) hnd.2
          (fun p hp q hq => huniq p (List.mem_cons_of_mem a hp) q (List.mem_cons_of_mem a hq))

/-- C7: the `MouseInput` handler scans cells in row-major order with the
same layout constants as the geometry mapper and toggles exactly the first
cell (in scan order) whose closed square contains the click; at most one
cell can match at the program's constants (`cell_size = 0.08`,
`padding = 0.02`), the center of each cell's square resolves to exactly
that cell, and a point strictly inside a padding gap or outside the grid
matches no cell. -/
theorem claim_C7_click (u : Universe) (x y : ℚ) (hlen : u.cells.length = u.rows * u.cols) :
    handleClick u mainCellSize x y
      = some (match resolve_click u.rows u.cols mainCellSize x y with
              | none => u
              | some p => { u with cells := u.cells.set (p.1 * u.cols + p.2) (!(u.cells.getD (p.1 * u.cols + p.2) false)) })
    ∧ (∀ p q : Nat × Nat, clickMatches mainCellSize x y p.1 p.2 = true →
        clickMatches mainCellSize x y q.1 q.2 = true → p = q)
    ∧ (∀ r c : Nat, r < u.rows → c < u.cols →
        resolve_click u.rows u.cols mainCellSize
          ((c : ℚ) * (mainCellSize + gridPadding) - 6/10 + mainCellSize / 2)
          ((r : ℚ) * (mainCellSize + gridPadding) - 6/10 + mainCellSize / 2) = some (r, c))
    ∧ (((∃ k : Nat, (k : ℚ) * (mainCellSize + gridPadding) - 6/10 + mainCellSize < x ∧
            x < ((k : ℚ) + 1) * (mainCellSize + gridPadding) - 6/10)
        ∨ x < -(6/10)
        ∨ ((u.cols : ℚ) - 1) * (mainCellSize + gridPadding) - 6/10 + mainCellSize < x
        ∨ (∃ k : Nat, (k : ℚ) * (mainCellSize + gridPadding) - 6/10 + mainCellSize < y ∧
            y < ((k : ℚ) + 1) * (mainCellSize + gridPadding) - 6/10)
        ∨ y < -(6/10)
        ∨ ((u.rows : ℚ) - 1) * (mainCellSize + gridPadding) - 6/10 + mainCellSize < y)
      → resolve_click u.rows u.cols mainCellSize x y = none) := by
  have huniq : ∀ p q : Nat × Nat, clickMatches mainCellSize x y p.1 p.2 = true →
      clickMatches mainCellSize x y q.1 q.2 = true → p = q := by
    intro p q h1 h2
    have h := click_unique x y p.1 p.2 q.1 q.2 h1 h2
    cases p
    cases q
    simp only [Prod.mk.injEq]
    exact h
  refine ⟨?_, huniq, ?_, ?_⟩
  · rw [handleClick, resolve_click]
    exact handle_fold x y (cellList u.rows u.cols) u hlen
      (fun p hp => (mem_cellList u.rows u.cols p).mp hp)
      (cellList_nodup u.rows u.cols)
      (fun p _ q _ h1 h2 => huniq p q h1 h2)
  · intro r c hr hc
    apply find?_eq_of_unique _ _ (r, c) ((mem_cellList u.rows u.cols (r, c)).mpr ⟨hr, hc⟩)
    · simp only [clickMatches, mainCellSize, gridPadding, decide_eq_true_eq]
      norm_num
    · intro b _ hb
      have hcen : clickMatches mainCellSize
          ((c : ℚ) * (mainCellSize + gridPadding) - 6/10 + mainCellSize / 2)
          ((r : ℚ) * (mainCellSize + gridPadding) - 6/10 + mainCellSize / 2) r c = true := by
        simp only [clickMatches, mainCellSize, gridPadding, decide_eq_true_eq]
        norm_num
      have h := click_unique _ _ b.1 b.2 r c hb hcen
      cases b
      simp only [Prod.mk.injEq]
      exact h
  · intro hgap
    rw [resolve_click, List.find?_eq_none]
    intro p hp hmatch
    obtain ⟨hp1, hp2⟩ := (mem_cellList u.rows u.cols p).mp hp
    simp only [clickMatches, mainCellSize, gridPadding, decide_eq_true_eq] at hmatch
    obtain ⟨m1, m2, m3, m4⟩ := hmatch
    simp only [mainCellSize, gridPadding] at hgap
    rcases hgap with ⟨k, hk1, hk2⟩ | hx | hx | ⟨k, hk1, hk2⟩ | hy | hy
    · rcases le_or_lt p.2 k with hle | hlt
      · have hcast : (p.2 : ℚ) ≤ (k : ℚ) := Nat.cast_le.mpr hle
        linarith
      · have hcast : (k : ℚ) + 1 ≤ (p.2 : ℚ) := by exact_mod_cast hlt
        linarith
    · have hcast : (0 : ℚ) ≤ (p.2 : ℚ) := Nat.cast_nonneg p.2
      linarith
    · have hcast : (p.2 : ℚ) + 1 ≤ (u.cols : ℚ) := by exact_mod_cast hp2
      linarith
    · rcases le_or_lt p.1 k with hle | hlt
      · have hcast : (p.1 : ℚ) ≤ (k : ℚ) := Nat.cast_le.mpr hle
        linarith
      · have hcast : (k : ℚ) + 1 ≤ (p.1 : ℚ) := by exact_mod_cast hlt
        linarith
    · have hcast : (0 : ℚ) ≤ (p.1 : ℚ) := Nat.cast_nonneg p.1
      linarith
    · have hcast : (p.1 : ℚ) + 1 ≤ (u.rows : ℚ) := by exact_mod_cast hp1
      linarith

theorem claim_C7_witness :
    resolve_click 2 2 mainCellSize
      (((0 : Nat) : ℚ) * (mainCellSize + gridPadding) - 6/10 + mainCellSize / 2)
      (((0 : Nat) : ℚ) * (mainCellSize + gridPadding) - 6/10 + mainCellSize / 2) = some (0, 0) :=
  (claim_C7_click (Universe.new 2 2 []) 0 0 (by decide)).2.2.1 0 0 (by decide) (by decide)
